import Mathlib

/-!
Verification development for the `version_tracker` repository.

The tracker scrapes an Apple software-update catalog, extracts a version
string per release-branch distribution document, and maintains an in-memory
table mapping branch names (ElCapitan / Sierra / HighSierra) to the greatest
version observed so far.

This file is a shallow embedding of:
  * the version comparison used by the scraper (hashicorp go-version
    `Compare`, restricted to dotted numeric segments as produced by the
    scraper's version regex, with zero-padding of shorter segment lists);
  * `getLatestVersion`, `updateOSVersionsMapFromProductMap`,
    `parseCatalogResponse` and `updateOSVersionsMap` from
    `tracker/osx_scraper.go` (HTTP requests, regex matchers and the plist
    decoder appear as oracle parameters; the response object carries explicit
    read/closed bookkeeping so that resource behaviour is visible);
  * the scheduler loop `mainLoop` from `tracker/tracker.go` (select outcomes
    appear as an explicit event list).
-/

/-! ## Versions (hashicorp/go-version as used by the scraper) -/

/-- A parsed version: the dotted numeric segments, e.g. `10.13.6 = [10, 13, 6]`. -/
structure Version where
  segs : List Nat
deriving DecidableEq, Repr

/-- Comparison of `[]` against a remaining segment list: equal when the rest
is all zero (zero-padding), smaller as soon as a positive segment remains. -/
def segCmpNil : List Nat → Ordering
  | [] => Ordering.eq
  | y :: ys => if 0 < y then Ordering.lt else segCmpNil ys

/-- go-version `Compare` on segment lists: componentwise numeric comparison,
with a shorter list implicitly zero-padded on the right. -/
def segCmp : List Nat → List Nat → Ordering
  | [], ys => segCmpNil ys
  | x :: xs, [] => if 0 < x then Ordering.gt else segCmp xs []
  | x :: xs, y :: ys =>
      if x < y then Ordering.lt
      else if y < x then Ordering.gt
      else segCmp xs ys

/-- `(*version.Version).GreaterThan`. -/
def Version.GreaterThan (a b : Version) : Bool :=
  match segCmp a.segs b.segs with
  | Ordering.gt => true
  | _ => false

/-- `(*version.Version).LessThan`. -/
def Version.LessThan (a b : Version) : Bool :=
  match segCmp a.segs b.segs with
  | Ordering.lt => true
  | _ => false

/-- Split a character list at every dot (the segment structure
`version.NewVersion` gives to a dotted version string). -/
def splitOnDot : List Char → List Char → List (List Char)
  | [], acc => [acc.reverse]
  | c :: rest, acc =>
      if c = '.' then acc.reverse :: splitOnDot rest []
      else splitOnDot rest (c :: acc)

def digitsToNatAux : List Char → Nat → Option Nat
  | [], acc => some acc
  | c :: cs, acc =>
      if '0' ≤ c ∧ c ≤ '9' then digitsToNatAux cs (acc * 10 + (c.toNat - 48))
      else none

/-- A nonempty all-digit character list read as a numeral. -/
def parseNat : List Char → Option Nat
  | [] => none
  | c :: cs => digitsToNatAux (c :: cs) 0

/-- `version.NewVersion` restricted to the dotted numeric strings the
scraper's regex can produce: every dot-separated part must be a numeral. -/
def parseVersion (s : String) : Option Version :=
  match (splitOnDot s.toList []).mapM parseNat with
  | none => none
  | some segs => some ⟨segs⟩

/-- `elCapitanMajor`, parsed from `"10.11.0"` in `init`. -/
def elCapitanMajor : Version := ⟨[10, 11, 0]⟩
/-- `sierraMajor`, parsed from `"10.12.0"` in `init`. -/
def sierraMajor : Version := ⟨[10, 12, 0]⟩
/-- `highSierraMajor`, parsed from `"10.13.0"` in `init`. -/
def highSierraMajor : Version := ⟨[10, 13, 0]⟩

def versionNameElCapitan : String := "ElCapitan"
def versionNameSierra : String := "Sierra"
def versionNameHighSierra : String := "HighSierra"

/-! ### Order lemmas for `segCmp` -/

lemma segCmpNil_replicate (k : Nat) : segCmpNil (List.replicate k 0) = Ordering.eq := by
  induction k with
  | zero => rfl
  | succ n ih => simpa [List.replicate, segCmpNil] using ih

lemma segCmpNil_append_zeros (b : List Nat) (k : Nat) :
    segCmpNil (b ++ List.replicate k 0) = segCmpNil b := by
  induction b with
  | nil => simpa using segCmpNil_replicate k
  | cons y ys ih =>
    simp only [List.cons_append, segCmpNil, List.append_eq]
    rw [ih]

lemma segCmp_nil_right (b : List Nat) : segCmp b [] = (segCmpNil b).swap := by
  induction b with
  | nil => rfl
  | cons y ys ih =>
    by_cases h : 0 < y
    · simp [segCmp, segCmpNil, h, Ordering.swap]
    · simp [segCmp, segCmpNil, h, ih]

lemma segCmp_refl (a : List Nat) : segCmp a a = Ordering.eq := by
  induction a with
  | nil => rfl
  | cons x xs ih => simp [segCmp, ih]

lemma segCmp_append_zeros_right (a : List Nat) :
    ∀ (b : List Nat) (k : Nat), segCmp a (b ++ List.replicate k 0) = segCmp a b := by
  induction a with
  | nil =>
    intro b k
    show segCmpNil _ = segCmpNil _
    exact segCmpNil_append_zeros b k
  | cons x xs ih =>
    intro b
    cases b with
    | nil =>
      intro k
      cases k with
      | zero => simp
      | succ n =>
        have hxs := ih ([] : List Nat) n
        simp only [List.nil_append] at hxs ⊢
        simp [List.replicate, segCmp, hxs]
    | cons y ys =>
      intro k
      simp only [List.cons_append, segCmp, List.append_eq]
      rw [ih ys k]

lemma segCmp_swap (a : List Nat) : ∀ b : List Nat, segCmp a b = (segCmp b a).swap := by
  induction a with
  | nil =>
    intro b
    show segCmpNil b = (segCmp b []).swap
    rw [segCmp_nil_right]
    cases segCmpNil b <;> rfl
  | cons x xs ih =>
    intro b
    cases b with
    | nil =>
      show segCmp (x :: xs) [] = (segCmpNil (x :: xs)).swap
      exact segCmp_nil_right (x :: xs)
    | cons y ys =>
      rcases Nat.lt_trichotomy x y with h | h | h
      · simp [segCmp, h, Nat.lt_asymm h, Ordering.swap]
      · subst h
        simp only [segCmp, Nat.lt_irrefl, if_false, if_neg (Nat.lt_irrefl x)]
        exact ih ys
      · simp [segCmp, h, Nat.lt_asymm h, Ordering.swap]

lemma segCmp_lt_iff_gt (a b : List Nat) :
    segCmp a b = Ordering.lt ↔ segCmp b a = Ordering.gt := by
  rw [segCmp_swap]
  cases segCmp b a <;> simp [Ordering.swap]

lemma segCmp_eq_of_len (a : List Nat) :
    ∀ b : List Nat, a.length = b.length → segCmp a b = Ordering.eq → a = b := by
  induction a with
  | nil =>
    intro b hlen _
    cases b with
    | nil => rfl
    | cons y ys => simp at hlen
  | cons x xs ih =>
    intro b hlen h
    cases b with
    | nil => simp at hlen
    | cons y ys =>
      simp only [List.length_cons] at hlen
      rcases Nat.lt_trichotomy x y with hxy | hxy | hxy
      · simp [segCmp, hxy] at h
      · subst hxy
        simp only [segCmp, Nat.lt_irrefl, if_false, if_neg (Nat.lt_irrefl x)] at h
        rw [ih ys (by omega) h]
      · simp [segCmp, hxy, Nat.lt_asymm hxy] at h

lemma segCmp_le_trans_len (a : List Nat) :
    ∀ b c : List Nat, a.length = b.length → b.length = c.length →
      segCmp a b ≠ Ordering.gt → segCmp b c ≠ Ordering.gt → segCmp a c ≠ Ordering.gt := by
  induction a with
  | nil =>
    intro b c hab hbc h1 h2
    cases b with
    | nil =>
      cases c with
      | nil => simp [segCmp, segCmpNil]
      | cons z zs => simp at hbc
    | cons y ys => simp at hab
  | cons x xs ih =>
    intro b c hab hbc h1 h2
    cases b with
    | nil => simp at hab
    | cons y ys =>
      cases c with
      | nil => simp at hbc
      | cons z zs =>
        simp only [List.length_cons] at hab hbc
        rcases Nat.lt_trichotomy x y with hxy | hxy | hxy
        · rcases Nat.lt_trichotomy y z with hyz | hyz | hyz
          · have hxz : x < z := Nat.lt_trans hxy hyz
            simp [segCmp, hxz]
          · subst hyz
            simp [segCmp, hxy]
          · exact absurd (by simp [segCmp, hyz, Nat.lt_asymm hyz]) h2
        · subst hxy
          rcases Nat.lt_trichotomy x z with hyz | hyz | hyz
          · simp [segCmp, hyz]
          · subst hyz
            simp only [segCmp, Nat.lt_irrefl, if_false, if_neg (Nat.lt_irrefl x)] at h1 h2 ⊢
            exact ih ys zs (by omega) (by omega) h1 h2
          · exact absurd (by simp [segCmp, hyz, Nat.lt_asymm hyz]) h2
        · exact absurd (by simp [segCmp, hxy, Nat.lt_asymm hxy]) h1

/-- Right zero-padding to length `n`. -/
def padZeros (a : List Nat) (n : Nat) : List Nat :=
  a ++ List.replicate (n - a.length) 0

lemma padZeros_length (a : List Nat) (n : Nat) (h : a.length ≤ n) :
    (padZeros a n).length = n := by
  simp [padZeros]
  omega

lemma segCmp_append_zeros_left (a b : List Nat) (k : Nat) :
    segCmp (a ++ List.replicate k 0) b = segCmp a b := by
  rw [segCmp_swap, segCmp_append_zeros_right, ← segCmp_swap]

lemma segCmp_padZeros (a b : List Nat) (n : Nat) :
    segCmp (padZeros a n) (padZeros b n) = segCmp a b := by
  rw [padZeros, padZeros, segCmp_append_zeros_left, segCmp_append_zeros_right]

lemma segCmp_le_trans (a b c : List Nat)
    (h1 : segCmp a b ≠ Ordering.gt) (h2 : segCmp b c ≠ Ordering.gt) :
    segCmp a c ≠ Ordering.gt := by
  set n := max a.length (max b.length c.length) with hn
  have ha : a.length ≤ n := le_max_left _ _
  have hb : b.length ≤ n := le_trans (le_max_left _ _) (le_max_right _ _)
  have hc : c.length ≤ n := le_trans (le_max_right _ _) (le_max_right _ _)
  have h1p : segCmp (padZeros a n) (padZeros b n) ≠ Ordering.gt := by
    rw [segCmp_padZeros]; exact h1
  have h2p : segCmp (padZeros b n) (padZeros c n) ≠ Ordering.gt := by
    rw [segCmp_padZeros]; exact h2
  have := segCmp_le_trans_len (padZeros a n) (padZeros b n) (padZeros c n)
    (by rw [padZeros_length _ _ ha, padZeros_length _ _ hb])
    (by rw [padZeros_length _ _ hb, padZeros_length _ _ hc]) h1p h2p
  rw [segCmp_padZeros] at this
  exact this

lemma segCmp_ge_trans (a b c : List Nat)
    (h1 : segCmp a b ≠ Ordering.lt) (h2 : segCmp b c ≠ Ordering.lt) :
    segCmp a c ≠ Ordering.lt := by
  intro h
  rw [segCmp_lt_iff_gt] at h
  have h1s : segCmp b a ≠ Ordering.gt := fun hx => h1 ((segCmp_lt_iff_gt a b).2 hx)
  have h2s : segCmp c b ≠ Ordering.gt := fun hx => h2 ((segCmp_lt_iff_gt b c).2 hx)
  exact segCmp_le_trans c b a h2s h1s h

/-! ## The version store (`VersionsInfo` from `tracker/tracker.go`)

`LatestVersions` is a Go `map[string]*version.Version`; here it is an
association list with unique keys maintained by `insertA`. `LastModified`
is a `time.Time`; wall-clock instants are abstracted as naturals, and each
call that executes `time.Now()` receives the current instant as the
parameter `now`. -/

/-- Go map indexing `m[k]` (the `value, ok` form). -/
def lookupA : List (String × Version) → String → Option Version
  | [], _ => none
  | (k1, v1) :: rest, k => if k1 = k then some v1 else lookupA rest k

/-- Go map assignment `m[k] = v`. -/
def insertA : List (String × Version) → String → Version → List (String × Version)
  | [], k, v => [(k, v)]
  | (k1, v1) :: rest, k, v =>
      if k1 = k then (k, v) :: rest else (k1, v1) :: insertA rest k v

structure VersionsInfo where
  LatestVersions : List (String × Version)
  LastModified : Nat
deriving DecidableEq, Repr

/-- The guarded per-branch update performed (under `t.mtx`) by each arm of
`updateOSVersionsMapFromProductMap`:

    latest, ok := versionsInfo.LatestVersions[branch]
    if !ok || v1.GreaterThan(latest) {
      versionsInfo.LatestVersions[branch] = v1
      versionsInfo.LastModified = time.Now()
      changed = true
    }
-/
def mergeBranch (vi : VersionsInfo) (changed : Bool) (branch : String)
    (v1 : Version) (now : Nat) : VersionsInfo × Bool :=
  match lookupA vi.LatestVersions branch with
  | none => (⟨insertA vi.LatestVersions branch v1, now⟩, true)
  | some latest =>
      if v1.GreaterThan latest then (⟨insertA vi.LatestVersions branch v1, now⟩, true)
      else (vi, changed)

/-- The effect of one guarded update on the single branch slot it touches. -/
def mergeOpt (cur : Option Version) (v : Version) : Option Version :=
  match cur with
  | none => some v
  | some latest => if v.GreaterThan latest then some v else some latest

/-! ## HTTP responses and `getLatestVersion`

`makeRequest` (tracker.go) issues a GET with an `If-Modified-Since` header
and hands back `*http.Response` without touching the body. Its outcome is a
`FetchOutcome` oracle value. The response body carries explicit `bytesRead`
and `closed` fields: `ioutil.ReadAll(resp.Body)` consumes the body, and the
`closed` flag records whether `resp.Body.Close()` was ever executed — the
scraper source contains no call to `Close`, so no embedded operation sets
it. -/

structure RespState where
  statusCode : Nat
  body : String
  readErr : Bool
  bytesRead : Nat
  closed : Bool
deriving DecidableEq, Repr

inductive FetchOutcome where
  | transportError
  | response (resp : RespState)

instance {ε α : Type} [DecidableEq ε] [DecidableEq α] : DecidableEq (Except ε α) :=
  fun x y =>
    match x, y with
    | Except.error a, Except.error b => decidable_of_iff (a = b) (by simp)
    | Except.error _, Except.ok _ => isFalse (fun hc => Except.noConfusion hc)
    | Except.ok _, Except.error _ => isFalse (fun hc => Except.noConfusion hc)
    | Except.ok a, Except.ok b => decidable_of_iff (a = b) (by simp)

/-- `ioutil.ReadAll(io.Reader(resp.Body))`. -/
def readAll (r : RespState) : Except String String × RespState :=
  if r.readErr then (Except.error "Error reading response", r)
  else (Except.ok r.body, { r with bytesRead := r.body.length })

/-- `FindStringSubmatch` of the three package-level regexes
(`TitleRegex`, `DiscardRegex`, `VersionRegex`), as oracles: each returns the
full-match-plus-groups list, `[]` when there is no match. -/
structure Matchers where
  titleFind : String → List String
  discardFind : String → List String
  versionFind : String → List String

/-- `(t *Tracker) getLatestVersion` from `tracker/osx_scraper.go`.
Returns the Go `(string, error)` pair together with the final state of the
response body (`none` when `makeRequest` failed and no response existed). -/
def getLatestVersion (m : Matchers) (outcome : FetchOutcome) :
    Except String String × Option RespState :=
  match outcome with
  | FetchOutcome.transportError => (Except.error "Error making request", none)
  | FetchOutcome.response resp =>
      if resp.statusCode ≠ 200 then (Except.ok "", some resp)
      else
        match readAll resp with
        | (Except.error e, r1) => (Except.error e, some r1)
        | (Except.ok body, r1) =>
            let titleMatch := m.titleFind body
            if titleMatch.length ≠ 4 then (Except.ok "", some r1)
            else
              let discardMatch := m.discardFind (titleMatch.getD 3 "")
              if discardMatch.length > 1 then (Except.ok "", some r1)
              else
                let matchList := m.versionFind body
                if matchList.length ≠ 3 then
                  (Except.error "Could not find version in distribution", some r1)
                else (Except.ok (matchList.getD 2 ""), some r1)

/-! ## The product catalog and `updateOSVersionsMapFromProductMap`

The catalog arrives as a dynamically-typed plist value
(`interface{}` after `plist.Unmarshal`); `PValue` is that dynamic value.
Go type assertions `x.(map[string]interface{})` / `x.(string)` become
`asDict` / `asStr`. -/

inductive PValue where
  | str (s : String)
  | dict (entries : List (String × PValue))
  | other

def PValue.asDict : PValue → Option (List (String × PValue))
  | PValue.dict entries => some entries
  | _ => none

def PValue.asStr : PValue → Option String
  | PValue.str s => some s
  | _ => none

/-- Go map indexing on a decoded plist dictionary. -/
def plookup : List (String × PValue) → String → Option PValue
  | [], _ => none
  | (k1, v1) :: rest, k => if k1 = k then some v1 else plookup rest k

/-- The chain of lookups/assertions
`product.(map[string]interface{})`, `productInfo["Distributions"].(map[string]interface{})`,
`distributions["English"].(string)`; any failure makes the loop `continue`. -/
def englishDistributionOf (product : PValue) : Option String :=
  match product.asDict with
  | none => none
  | some productInfo =>
      match (plookup productInfo "Distributions").bind PValue.asDict with
      | none => none
      | some distributions => (plookup distributions "English").bind PValue.asStr

/-- One iteration of the `for key, product := range productsMap` loop body in
`updateOSVersionsMapFromProductMap`: fetch the English distribution, extract
and parse the version, drop versions below the oldest tracked major, and
classify the survivors into the HighSierra / Sierra / ElCapitan slot. Every
`continue` in the source returns the accumulator unchanged. `branchFetch`
is the `makeRequest` oracle for the per-branch distribution URLs (the
`lastModified` argument of the source is folded into the oracle). -/
def processProduct (branchFetch : String → FetchOutcome) (m : Matchers) (now : Nat)
    (acc : VersionsInfo × Bool) (product : PValue) : VersionsInfo × Bool :=
  match englishDistributionOf product with
  | none => acc
  | some englishDistribution =>
      match getLatestVersion m (branchFetch englishDistribution) with
      | (Except.error _, _) => acc
      | (Except.ok ver, _) =>
          if ver = "" then acc
          else
            match parseVersion ver with
            | none => acc
            | some v1 =>
                if v1.LessThan elCapitanMajor then acc
                else if v1.GreaterThan highSierraMajor then
                  mergeBranch acc.1 acc.2 versionNameHighSierra v1 now
                else if v1.GreaterThan sierraMajor then
                  mergeBranch acc.1 acc.2 versionNameSierra v1 now
                else if v1.GreaterThan elCapitanMajor then
                  mergeBranch acc.1 acc.2 versionNameElCapitan v1 now
                else acc

/-- The distribution URLs for which the loop body calls `getLatestVersion`
(and hence `makeRequest`): exactly the products that pass the three
lookups/assertions. -/
def productTrace (product : PValue) : List String :=
  match englishDistributionOf product with
  | none => []
  | some url => [url]

/-- `(t *Tracker) updateOSVersionsMapFromProductMap`. The result is the Go
`(bool, error)` pair together with the final `versionsInfo` and the list of
branch-level distribution URLs fetched during the loop; the outer `none`
models the panic of the unchecked assertion
`productCatalogInterface.(map[string]interface{})`. -/
def updateOSVersionsMapFromProductMap (branchFetch : String → FetchOutcome)
    (m : Matchers) (productCatalog : PValue) (versionsInfo : VersionsInfo)
    (now : Nat) : Option (Except String ((VersionsInfo × Bool) × List String)) :=
  match productCatalog.asDict with
  | none => none
  | some productCatalogMap =>
      match (plookup productCatalogMap "Products").bind PValue.asDict with
      | none => some (Except.error "Could not parse products")
      | some productsMap =>
          some (Except.ok
            (productsMap.foldl
              (fun acc kp => processProduct branchFetch m now acc kp.2)
              (versionsInfo, false),
             productsMap.foldl (fun tr kp => tr ++ productTrace kp.2) []))

/-- `(t *Tracker) parseCatalogResponse`: read the body, then
`plist.Unmarshal`; the decoder is the oracle `plistDecode` (`none` models an
unmarshalling error). -/
def parseCatalogResponse (plistDecode : String → Option PValue)
    (resp : RespState) : Except String PValue × RespState :=
  match readAll resp with
  | (Except.error e, r1) => (Except.error e, r1)
  | (Except.ok body, r1) =>
      match plistDecode body with
      | none => (Except.error "Error unmarshalling response", r1)
      | some parsedCatalog => (Except.ok parsedCatalog, r1)

/-- `(t *Tracker) updateOSVersionsMap`: conditional catalog fetch,
short-circuit on a non-200 status, parse, then process the product map.
`catalogOutcome` is the `makeRequest` oracle for the catalog URL (carrying
the stored `lastModified` precondition). The result is the Go
`(bool, error)` pair, the final store state, and the branch fetch trace;
`none` again models the dynamic-type panic. -/
def updateOSVersionsMap (catalogOutcome : FetchOutcome)
    (plistDecode : String → Option PValue) (branchFetch : String → FetchOutcome)
    (m : Matchers) (versionsInfo : VersionsInfo) (now : Nat) :
    Option ((Except String Bool) × VersionsInfo × List String) :=
  match catalogOutcome with
  | FetchOutcome.transportError =>
      some (Except.error "Error making request", versionsInfo, [])
  | FetchOutcome.response resp =>
      if resp.statusCode ≠ 200 then some (Except.ok false, versionsInfo, [])
      else
        match parseCatalogResponse plistDecode resp with
        | (Except.error e, _) => some (Except.error e, versionsInfo, [])
        | (Except.ok productMap, _) =>
            match updateOSVersionsMapFromProductMap branchFetch m productMap
                versionsInfo now with
            | none => none
            | some (Except.error e) => some (Except.error e, versionsInfo, [])
            | some (Except.ok ((vi2, changed), trace)) =>
                some (Except.ok changed, vi2, trace)

/-! ## The scheduler loop (`mainLoop` from `tracker/tracker.go`)

`mainLoop` scrapes once, then creates the interval ticker and enters a
`select` loop over `ctx.Done()` and `timer.C`. The sequence of `select`
outcomes is the event list; the produced actions are the observable
behaviour of the loop on that (finite prefix of the) event sequence. -/

inductive LoopEvent where
  | tick
  | cancel
deriving DecidableEq, Repr

inductive LoopAction where
  | scrape
  | shutdown
deriving DecidableEq, Repr

/-- The `for { select { ... } }` part of `mainLoop`: a timer tick runs
`t.ScrapeForMacVersions()` and loops; `ctx.Done()` stops the ticker and
returns. -/
def loopRun : List LoopEvent → List LoopAction
  | [] => []
  | LoopEvent.cancel :: _ => [LoopAction.shutdown]
  | LoopEvent.tick :: rest => LoopAction.scrape :: loopRun rest

/-- `(t *Tracker) mainLoop`: one immediate `ScrapeForMacVersions`, then the
ticker loop. -/
def mainLoop (evts : List LoopEvent) : List LoopAction :=
  LoopAction.scrape :: loopRun evts

/-! ## Store lemmas -/

lemma lookupA_insertA_self (l : List (String × Version)) (k : String) (v : Version) :
    lookupA (insertA l k v) k = some v := by
  induction l with
  | nil => simp [insertA, lookupA]
  | cons p rest ih =>
    obtain ⟨k1, v1⟩ := p
    by_cases h : k1 = k
    · simp [insertA, lookupA, h]
    · simp [insertA, lookupA, h, ih]

lemma lookupA_insertA_ne (l : List (String × Version)) (k k2 : String) (v : Version)
    (h : k ≠ k2) : lookupA (insertA l k v) k2 = lookupA l k2 := by
  induction l with
  | nil => simp [insertA, lookupA, h]
  | cons p rest ih =>
    obtain ⟨k1, v1⟩ := p
    by_cases h1 : k1 = k
    · subst h1
      simp [insertA, lookupA, h]
    · simp [insertA, lookupA, h1, ih]

lemma mergeBranch_lookup_same (vi : VersionsInfo) (ch : Bool) (b : String)
    (v : Version) (now : Nat) :
    lookupA (mergeBranch vi ch b v now).1.LatestVersions b
      = mergeOpt (lookupA vi.LatestVersions b) v := by
  unfold mergeBranch mergeOpt
  cases h : lookupA vi.LatestVersions b with
  | none => simp [lookupA_insertA_self]
  | some latest =>
    by_cases hg : v.GreaterThan latest
    · simp [hg, lookupA_insertA_self]
    · simp [hg, h]

lemma mergeBranch_lookup_other (vi : VersionsInfo) (ch : Bool) (b : String)
    (v : Version) (now : Nat) (b2 : String) (h : b ≠ b2) :
    lookupA (mergeBranch vi ch b v now).1.LatestVersions b2
      = lookupA vi.LatestVersions b2 := by
  unfold mergeBranch
  cases hl : lookupA vi.LatestVersions b with
  | none => simp [lookupA_insertA_ne _ _ _ _ h]
  | some latest =>
    by_cases hg : v.GreaterThan latest
    · simp [hg, lookupA_insertA_ne _ _ _ _ h]
    · simp [hg]

lemma Version.not_greaterThan_iff (a b : Version) :
    Version.GreaterThan a b = false ↔ segCmp a.segs b.segs ≠ Ordering.gt := by
  unfold Version.GreaterThan
  cases segCmp a.segs b.segs <;> simp

lemma Version.greaterThan_iff (a b : Version) :
    Version.GreaterThan a b = true ↔ segCmp a.segs b.segs = Ordering.gt := by
  unfold Version.GreaterThan
  cases segCmp a.segs b.segs <;> simp

lemma mergeOpt_mono (cur : Option Version) (v old : Version)
    (h : cur = some old) :
    ∃ new, mergeOpt cur v = some new ∧ segCmp new.segs old.segs ≠ Ordering.lt := by
  subst h
  unfold mergeOpt
  by_cases hg : v.GreaterThan old
  · refine ⟨v, by simp [hg], ?_⟩
    rw [(Version.greaterThan_iff v old).1 hg]
    simp
  · exact ⟨old, by simp [hg], by simp [segCmp_refl]⟩

lemma mergeBranch_mono (vi : VersionsInfo) (ch : Bool) (b : String) (v : Version)
    (now : Nat) (b2 : String) (old : Version)
    (h : lookupA vi.LatestVersions b2 = some old) :
    ∃ new, lookupA (mergeBranch vi ch b v now).1.LatestVersions b2 = some new ∧
      segCmp new.segs old.segs ≠ Ordering.lt := by
  by_cases hb : b = b2
  · subst hb
    rw [mergeBranch_lookup_same]
    exact mergeOpt_mono _ v old h
  · rw [mergeBranch_lookup_other _ _ _ _ _ _ hb, h]
    exact ⟨old, rfl, by simp [segCmp_refl]⟩

lemma processProduct_mono (branchFetch : String → FetchOutcome) (m : Matchers)
    (now : Nat) (acc : VersionsInfo × Bool) (product : PValue) (b : String)
    (old : Version) (h : lookupA acc.1.LatestVersions b = some old) :
    ∃ new, lookupA (processProduct branchFetch m now acc product).1.LatestVersions b
        = some new ∧ segCmp new.segs old.segs ≠ Ordering.lt := by
  have triv : ∃ new, lookupA acc.1.LatestVersions b = some new ∧
      segCmp new.segs old.segs ≠ Ordering.lt :=
    ⟨old, h, by simp [segCmp_refl]⟩
  unfold processProduct
  cases englishDistributionOf product with
  | none => exact triv
  | some url =>
    simp only
    cases hget : getLatestVersion m (branchFetch url) with
    | mk res rs =>
      cases res with
      | error e => exact triv
      | ok ver =>
        by_cases hv : ver = ""
        · simp [hv]; exact triv
        · simp only [hv, if_false, if_neg hv]
          cases parseVersion ver with
          | none => exact triv
          | some v1 =>
            simp only
            by_cases h1 : v1.LessThan elCapitanMajor
            · simp [h1]; exact triv
            · rw [if_neg h1]
              by_cases h2 : v1.GreaterThan highSierraMajor
              · rw [if_pos h2]
                exact mergeBranch_mono _ _ _ _ _ _ _ h
              · rw [if_neg h2]
                by_cases h3 : v1.GreaterThan sierraMajor
                · rw [if_pos h3]
                  exact mergeBranch_mono _ _ _ _ _ _ _ h
                · rw [if_neg h3]
                  by_cases h4 : v1.GreaterThan elCapitanMajor
                  · rw [if_pos h4]
                    exact mergeBranch_mono _ _ _ _ _ _ _ h
                  · rw [if_neg h4]
                    exact triv

lemma foldl_processProduct_mono (branchFetch : String → FetchOutcome) (m : Matchers)
    (now : Nat) (l : List (String × PValue)) :
    ∀ (acc : VersionsInfo × Bool) (b : String) (old : Version),
      lookupA acc.1.LatestVersions b = some old →
      ∃ new,
        lookupA (l.foldl (fun acc kp => processProduct branchFetch m now acc kp.2)
            acc).1.LatestVersions b = some new ∧
          segCmp new.segs old.segs ≠ Ordering.lt := by
  induction l with
  | nil => intro acc b old h; exact ⟨old, h, by simp [segCmp_refl]⟩
  | cons kp rest ih =>
    intro acc b old h
    obtain ⟨mid, hmid, hge1⟩ := processProduct_mono branchFetch m now acc kp.2 b old h
    obtain ⟨new, hnew, hge2⟩ := ih (processProduct branchFetch m now acc kp.2) b mid hmid
    exact ⟨new, hnew, segCmp_ge_trans _ _ _ hge2 hge1⟩

/-! ## Fold lemmas: repeated merges for a single branch -/

/-- A sequence of guarded per-branch updates for the same branch, as the
store serialises them under `t.mtx` (each element is one product's merge). -/
def runMerges (branch : String) (vs : List Version) (vi : VersionsInfo)
    (now : Nat) : VersionsInfo × Bool :=
  vs.foldl (fun acc v => mergeBranch acc.1 acc.2 branch v now) (vi, false)

lemma runMerges_lookup (branch : String) (vs : List Version) :
    ∀ (st : VersionsInfo × Bool) (now : Nat),
      lookupA
          (vs.foldl (fun acc v => mergeBranch acc.1 acc.2 branch v now)
            st).1.LatestVersions branch
        = vs.foldl mergeOpt (lookupA st.1.LatestVersions branch) := by
  induction vs with
  | nil => intro st now; rfl
  | cons v vs ih =>
    intro st now
    simp only [List.foldl_cons]
    rw [ih (mergeBranch st.1 st.2 branch v now) now, mergeBranch_lookup_same]

lemma foldl_mergeOpt_spec (vs : List Version) :
    ∀ m0 : Version, ∃ mx, vs.foldl mergeOpt (some m0) = some mx ∧
      (mx = m0 ∨ mx ∈ vs) ∧ segCmp mx.segs m0.segs ≠ Ordering.lt ∧
      ∀ v ∈ vs, segCmp v.segs mx.segs ≠ Ordering.gt := by
  induction vs with
  | nil =>
    intro m0
    exact ⟨m0, rfl, Or.inl rfl, by simp [segCmp_refl], by simp⟩
  | cons v vs ih =>
    intro m0
    by_cases hg : v.GreaterThan m0
    · obtain ⟨mx, hfold, hmem, hge, hdom⟩ := ih v
      have hstep : mergeOpt (some m0) v = some v := by simp [mergeOpt, hg]
      refine ⟨mx, ?_, ?_, ?_, ?_⟩
      · simp only [List.foldl_cons, hstep]; exact hfold
      · rcases hmem with h | h
        · exact Or.inr (h ▸ List.mem_cons_self v vs)
        · exact Or.inr (List.mem_cons_of_mem v h)
      · have hvm : segCmp v.segs m0.segs ≠ Ordering.lt := by
          rw [(Version.greaterThan_iff v m0).1 hg]; simp
        exact segCmp_ge_trans _ _ _ hge hvm
      · intro w hw
        rcases List.mem_cons.1 hw with h | h
        · subst h
          intro hgt
          exact hge ((segCmp_lt_iff_gt _ _).2 hgt)
        · exact hdom w h
    · obtain ⟨mx, hfold, hmem, hge, hdom⟩ := ih m0
      have hstep : mergeOpt (some m0) v = some m0 := by simp [mergeOpt, hg]
      refine ⟨mx, ?_, ?_, ?_, ?_⟩
      · simp only [List.foldl_cons, hstep]; exact hfold
      · rcases hmem with h | h
        · exact Or.inl h
        · exact Or.inr (List.mem_cons_of_mem v h)
      · exact hge
      · intro w hw
        rcases List.mem_cons.1 hw with h | h
        · subst h
          have hvle : segCmp w.segs m0.segs ≠ Ordering.gt := by
            have : w.GreaterThan m0 = false := by
              cases hb : w.GreaterThan m0 with
              | false => rfl
              | true => exact absurd hb hg
            exact (Version.not_greaterThan_iff w m0).1 this
          have hm0le : segCmp m0.segs mx.segs ≠ Ordering.gt := by
            intro hgt
            exact hge ((segCmp_lt_iff_gt _ _).2 hgt)
          exact segCmp_le_trans _ _ _ hvle hm0le
        · exact hdom w h

lemma foldl_mergeOpt_none_spec (vs : List Version) (hne : vs ≠ []) :
    ∃ mx, vs.foldl mergeOpt none = some mx ∧ mx ∈ vs ∧
      ∀ v ∈ vs, segCmp v.segs mx.segs ≠ Ordering.gt := by
  cases vs with
  | nil => exact absurd rfl hne
  | cons v0 rest =>
    obtain ⟨mx, hfold, hmem, hge, hdom⟩ := foldl_mergeOpt_spec rest v0
    refine ⟨mx, ?_, ?_, ?_⟩
    · simpa only [List.foldl_cons, mergeOpt] using hfold
    · rcases hmem with h | h
      · exact h ▸ List.mem_cons_self v0 rest
      · exact List.mem_cons_of_mem v0 h
    · intro w hw
      rcases List.mem_cons.1 hw with h | h
      · subst h
        intro hgt
        exact hge ((segCmp_lt_iff_gt _ _).2 hgt)
      · exact hdom w h

/-! ## No-op lemmas for single loop iterations -/

lemma processProduct_error_noop (branchFetch : String → FetchOutcome) (m : Matchers)
    (now : Nat) (acc : VersionsInfo × Bool) (p : PValue) (url : String) (e : String)
    (hurl : englishDistributionOf p = some url)
    (herr : (getLatestVersion m (branchFetch url)).1 = Except.error e) :
    processProduct branchFetch m now acc p = acc := by
  cases hget : getLatestVersion m (branchFetch url) with
  | mk res rs =>
    cases res with
    | error e2 =>
      unfold processProduct
      rw [hurl]
      simp only [hget]
    | ok ver =>
      rw [hget] at herr
      exact absurd herr (by simp)

/-! ## Claim theorems -/

/-- C3: merging a candidate version less than or equal to the version already
stored for that branch is a no-op: the guarded update reports no change
(passes the `changed` flag through unchanged) and leaves both the branch map
entry and `LastModified` untouched. -/
theorem mergeBranch_le_is_noop (vi : VersionsInfo) (ch : Bool) (branch : String)
    (v old : Version) (now : Nat)
    (hstored : lookupA vi.LatestVersions branch = some old)
    (hle : segCmp v.segs old.segs ≠ Ordering.gt) :
    mergeBranch vi ch branch v now = (vi, ch) := by
  unfold mergeBranch
  rw [hstored]
  have hfalse : v.GreaterThan old = false := by
    cases hb : v.GreaterThan old with
    | false => rfl
    | true => exact absurd ((Version.greaterThan_iff _ _).1 hb) hle
  simp [hfalse]

/-- Witness for C3 at a concrete store and candidate. -/
theorem mergeBranch_le_is_noop_witness :
    lookupA (VersionsInfo.mk [("Sierra", ⟨[10, 12, 5]⟩)] 3).LatestVersions "Sierra"
        = some ⟨[10, 12, 5]⟩ ∧
    segCmp [10, 12, 4] [10, 12, 5] ≠ Ordering.gt ∧
    mergeBranch (VersionsInfo.mk [("Sierra", ⟨[10, 12, 5]⟩)] 3) false "Sierra"
        ⟨[10, 12, 4]⟩ 9
      = (VersionsInfo.mk [("Sierra", ⟨[10, 12, 5]⟩)] 3, false) :=
  ⟨by decide, by decide,
    mergeBranch_le_is_noop (VersionsInfo.mk [("Sierra", ⟨[10, 12, 5]⟩)] 3) false
      "Sierra" ⟨[10, 12, 4]⟩ ⟨[10, 12, 5]⟩ 9 (by decide) (by decide)⟩

/-- C4: when the catalog-level fetch returns a non-200 status (not
modified), the cycle short-circuits: the Go result is `(false, nil)`
(no update, no error), the store is returned unchanged, and the trace of
branch-level distribution fetches is empty. -/
theorem updateOSVersionsMap_not_modified_short_circuits
    (plistDecode : String → Option PValue) (branchFetch : String → FetchOutcome)
    (m : Matchers) (vi : VersionsInfo) (now : Nat) (resp : RespState)
    (h : resp.statusCode ≠ 200) :
    updateOSVersionsMap (FetchOutcome.response resp) plistDecode branchFetch m vi now
      = some (Except.ok false, vi, []) := by
  simp [updateOSVersionsMap, h]

/-- Witness for C4 with a concrete 304 response. -/
theorem updateOSVersionsMap_not_modified_short_circuits_witness :
    (RespState.mk 304 "" false 0 false).statusCode ≠ 200 ∧
    updateOSVersionsMap (FetchOutcome.response (RespState.mk 304 "" false 0 false))
        (fun _ => none) (fun _ => FetchOutcome.transportError)
        (Matchers.mk (fun _ => []) (fun _ => []) (fun _ => []))
        (VersionsInfo.mk [] 0) 5
      = some (Except.ok false, VersionsInfo.mk [] 0, []) :=
  ⟨by decide,
    updateOSVersionsMap_not_modified_short_circuits _ _ _ _ 5 _ (by decide)⟩

/-- C6: a per-branch document whose extracted version parses strictly below
the oldest tracked branch threshold (10.11.0) is skipped: the loop iteration
leaves the store and `changed` flag exactly as they were, with no error. -/
theorem processProduct_below_threshold_skipped (branchFetch : String → FetchOutcome)
    (m : Matchers) (now : Nat) (acc : VersionsInfo × Bool) (p : PValue)
    (url ver : String) (v : Version)
    (hurl : englishDistributionOf p = some url)
    (hok : (getLatestVersion m (branchFetch url)).1 = Except.ok ver)
    (hparse : parseVersion ver = some v)
    (hlt : v.LessThan elCapitanMajor = true) :
    processProduct branchFetch m now acc p = acc := by
  cases hget : getLatestVersion m (branchFetch url) with
  | mk res rs =>
    rw [hget] at hok
    have hres : res = Except.ok ver := hok
    subst hres
    unfold processProduct
    rw [hurl]
    simp only [hget]
    have hv : ver ≠ "" := by
      intro hempty
      subst hempty
      rw [show parseVersion "" = none from by decide] at hparse
      simp at hparse
    rw [if_neg hv]
    simp only [hparse]
    rw [if_pos hlt]

/-- Witness for C6: a document advertising version 10.10.5 is dropped. -/
theorem processProduct_below_threshold_skipped_witness :
    englishDistributionOf
        (PValue.dict [("Distributions", PValue.dict [("English", PValue.str "u")])])
      = some "u" ∧
    parseVersion "10.10.5" = some ⟨[10, 10, 5]⟩ ∧
    Version.LessThan ⟨[10, 10, 5]⟩ elCapitanMajor = true ∧
    processProduct (fun _ => FetchOutcome.response (RespState.mk 200 "d" false 0 false))
        (Matchers.mk (fun _ => ["t", "SU_TITLE", "macOS 10", ".10.5"]) (fun _ => [])
          (fun _ => ["m", "SU_VERS", "10.10.5"]))
        7 (VersionsInfo.mk [] 0, false)
        (PValue.dict [("Distributions", PValue.dict [("English", PValue.str "u")])])
      = (VersionsInfo.mk [] 0, false) :=
  ⟨by decide, by decide, by decide,
    processProduct_below_threshold_skipped _ _ 7 _ _ "u" "10.10.5" ⟨[10, 10, 5]⟩
      (by decide) (by decide) (by decide) (by decide)⟩

/-- C7: on every sequence of select outcomes, the scheduler loop performs one
scrape before consuming any event (the head of the action trace is a scrape),
then exactly one further scrape per timer tick until the first cancellation,
at which point it shuts down. -/
theorem mainLoop_scrapes_immediately_then_per_tick (evts : List LoopEvent) :
    mainLoop evts
      = LoopAction.scrape ::
          (List.replicate
              (evts.takeWhile (fun e => decide (e = LoopEvent.tick))).length
              LoopAction.scrape
            ++ if LoopEvent.cancel ∈ evts then [LoopAction.shutdown] else []) := by
  unfold mainLoop
  congr 1
  induction evts with
  | nil => simp [loopRun]
  | cons e rest ih =>
    cases e with
    | cancel => simp [loopRun, List.takeWhile_cons]
    | tick => simp [loopRun, List.takeWhile_cons, ih, List.replicate_succ]

/-- C8 (code bug evidence): on a 200 response `getLatestVersion` reads the
body to the end before returning, but the final response state still has
`closed = false` — the source never calls `resp.Body.Close()` on any path,
contradicting the claimed guaranteed release. -/
theorem getLatestVersion_200_reads_fully_but_never_closes :
    (getLatestVersion
        (Matchers.mk (fun _ => ["t", "SU_TITLE", "macOS 10", ".13.6"]) (fun _ => [])
          (fun _ => ["m", "SU_VERS", "10.13.6"]))
        (FetchOutcome.response (RespState.mk 200 "distribution body" false 0 false)))
      = (Except.ok "10.13.6",
         some (RespState.mk 200 "distribution body" false
            ("distribution body".length) false)) := by
  decide

/-- C10: the per-branch extraction returns the same Go result `("", nil)`
both when the branch fetch returns a non-200 status (not modified) and when
the fetched document fails the title filter or matches the discard filter
(not a relevant release), so callers cannot distinguish the two cases. -/
theorem getLatestVersion_notModified_absent_indistinguishable (m : Matchers)
    (r1 r2 : RespState)
    (h1 : r1.statusCode ≠ 200) (h2 : r2.statusCode = 200) (hread : r2.readErr = false)
    (habs : (m.titleFind r2.body).length ≠ 4 ∨
      (m.discardFind ((m.titleFind r2.body).getD 3 "")).length > 1) :
    (getLatestVersion m (FetchOutcome.response r1)).1 = Except.ok "" ∧
    (getLatestVersion m (FetchOutcome.response r2)).1 = Except.ok "" := by
  constructor
  · simp [getLatestVersion, h1]
  · rcases habs with h | h
    · simp [getLatestVersion, readAll, h2, hread, h]
    · by_cases ht : (m.titleFind r2.body).length = 4
      · have hlt3 : 3 < (m.titleFind r2.body).length := by omega
        rw [List.getD_eq_getElem _ _ hlt3] at h
        simp [getLatestVersion, readAll, h2, hread, ht, h]
      · simp [getLatestVersion, readAll, h2, hread, ht]

/-- Witness for C10: a 304 response and a 200 response whose body fails the
title filter produce the same result. -/
theorem getLatestVersion_notModified_absent_indistinguishable_witness :
    (RespState.mk 304 "" false 0 false).statusCode ≠ 200 ∧
    ((Matchers.mk (fun _ => []) (fun _ => []) (fun _ => [])).titleFind
        (RespState.mk 200 "body" false 0 false).body).length ≠ 4 ∧
    (getLatestVersion (Matchers.mk (fun _ => []) (fun _ => []) (fun _ => []))
        (FetchOutcome.response (RespState.mk 304 "" false 0 false))).1 = Except.ok "" ∧
    (getLatestVersion (Matchers.mk (fun _ => []) (fun _ => []) (fun _ => []))
        (FetchOutcome.response (RespState.mk 200 "body" false 0 false))).1 = Except.ok "" := by
  refine ⟨by decide, by decide, ?_⟩
  have h := getLatestVersion_notModified_absent_indistinguishable
    (Matchers.mk (fun _ => []) (fun _ => []) (fun _ => []))
    (RespState.mk 304 "" false 0 false) (RespState.mk 200 "body" false 0 false)
    (by decide) rfl rfl (Or.inl (by decide))
  exact h

/-- Evaluation of `updateOSVersionsMapFromProductMap` on a well-formed
catalog dictionary. -/
lemma updateFromProductMap_dict_eq (branchFetch : String → FetchOutcome)
    (m : Matchers) (prods : List (String × PValue)) (vi : VersionsInfo) (now : Nat) :
    updateOSVersionsMapFromProductMap branchFetch m
        (PValue.dict [("Products", PValue.dict prods)]) vi now
      = some (Except.ok
          (prods.foldl (fun acc kp => processProduct branchFetch m now acc kp.2)
            (vi, false),
           prods.foldl (fun tr kp => tr ++ productTrace kp.2) [])) := by
  rfl

/-- Dropping a product whose branch-level `getLatestVersion` call fails does
not change the result of the product fold, whatever the initial state. -/
lemma foldl_processProduct_skip (branchFetch : String → FetchOutcome) (m : Matchers)
    (now : Nat) (l1 l2 : List (String × PValue)) (k : String) (p : PValue)
    (url e : String) (hurl : englishDistributionOf p = some url)
    (herr : (getLatestVersion m (branchFetch url)).1 = Except.error e) :
    ∀ init : VersionsInfo × Bool,
      (l1 ++ (k, p) :: l2).foldl
          (fun acc kp => processProduct branchFetch m now acc kp.2) init
        = (l1 ++ l2).foldl
            (fun acc kp => processProduct branchFetch m now acc kp.2) init := by
  induction l1 with
  | nil =>
    intro init
    simp only [List.nil_append, List.foldl_cons]
    rw [processProduct_error_noop branchFetch m now init p url e hurl herr]
  | cons q l1 ih =>
    intro init
    simp only [List.cons_append, List.foldl_cons]
    exact ih _

/-- C1: across the whole per-product update loop — any sequence of candidate
merges — the stored version for every branch never decreases: each slot is
replaced only by a strictly greater candidate, so the final stored version
is at least the initially stored one. -/
theorem updateOSVersionsMapFromProductMap_never_decreases
    (branchFetch : String → FetchOutcome) (m : Matchers) (productCatalog : PValue)
    (vi : VersionsInfo) (now : Nat) (vi2 : VersionsInfo) (ch : Bool)
    (tr : List String) (branch : String) (old : Version)
    (hrun : updateOSVersionsMapFromProductMap branchFetch m productCatalog vi now
        = some (Except.ok ((vi2, ch), tr)))
    (hold : lookupA vi.LatestVersions branch = some old) :
    ∃ new, lookupA vi2.LatestVersions branch = some new ∧
      segCmp new.segs old.segs ≠ Ordering.lt := by
  unfold updateOSVersionsMapFromProductMap at hrun
  split at hrun
  · exact absurd hrun (by simp)
  · split at hrun
    · exact absurd hrun (by simp)
    · rename_i productsMap hp
      simp only [Option.some.injEq, Except.ok.injEq, Prod.mk.injEq] at hrun
      obtain ⟨hF, hT⟩ := hrun
      obtain ⟨new, hnew, hge⟩ :=
        foldl_processProduct_mono branchFetch m now productsMap (vi, false) branch old hold
      rw [hF] at hnew
      exact ⟨new, hnew, hge⟩

/-- Witness for C1: a stored ElCapitan 10.11.5 is raised, never lowered, by a
catalog advertising 10.11.6. -/
theorem updateOSVersionsMapFromProductMap_never_decreases_witness :
    updateOSVersionsMapFromProductMap
        (fun _ => FetchOutcome.response (RespState.mk 200 "d" false 0 false))
        (Matchers.mk (fun _ => ["t", "SU_TITLE", "macOS 10", ".11.6"]) (fun _ => [])
          (fun _ => ["m", "SU_VERS", "10.11.6"]))
        (PValue.dict [("Products", PValue.dict
          [("031-63178", PValue.dict
            [("Distributions", PValue.dict [("English", PValue.str "u")])])])])
        (VersionsInfo.mk [("ElCapitan", ⟨[10, 11, 5]⟩)] 1) 9
      = some (Except.ok
          ((VersionsInfo.mk [("ElCapitan", ⟨[10, 11, 6]⟩)] 9, true), ["u"])) ∧
    lookupA (VersionsInfo.mk [("ElCapitan", ⟨[10, 11, 5]⟩)] 1).LatestVersions
        "ElCapitan" = some ⟨[10, 11, 5]⟩ ∧
    ∃ new,
      lookupA (VersionsInfo.mk [("ElCapitan", ⟨[10, 11, 6]⟩)] 9).LatestVersions
          "ElCapitan" = some new ∧
      segCmp new.segs [10, 11, 5] ≠ Ordering.lt :=
  ⟨by decide, by decide,
    updateOSVersionsMapFromProductMap_never_decreases
      (fun _ => FetchOutcome.response (RespState.mk 200 "d" false 0 false))
      (Matchers.mk (fun _ => ["t", "SU_TITLE", "macOS 10", ".11.6"]) (fun _ => [])
        (fun _ => ["m", "SU_VERS", "10.11.6"]))
      (PValue.dict [("Products", PValue.dict
        [("031-63178", PValue.dict
          [("Distributions", PValue.dict [("English", PValue.str "u")])])])])
      (VersionsInfo.mk [("ElCapitan", ⟨[10, 11, 5]⟩)] 1) 9
      (VersionsInfo.mk [("ElCapitan", ⟨[10, 11, 6]⟩)] 9) true ["u"]
      "ElCapitan" ⟨[10, 11, 5]⟩ (by decide) (by decide)⟩

/-- C2: for a branch with no stored entry, folding any permutation of the
same nonempty sequence of (three-segment) candidate versions through the
guarded merge leaves the same final stored version, and that version is the
maximum of the sequence (it belongs to the sequence and no element exceeds
it) — merge order does not matter. -/
theorem runMerges_any_order_yields_max (branch : String) (vs vs2 : List Version)
    (vi : VersionsInfo) (n1 n2 : Nat)
    (hne : vs ≠ []) (hperm : vs2.Perm vs)
    (hlen : ∀ v ∈ vs, v.segs.length = 3)
    (habsent : lookupA vi.LatestVersions branch = none) :
    ∃ mx, lookupA (runMerges branch vs vi n1).1.LatestVersions branch = some mx ∧
      lookupA (runMerges branch vs2 vi n2).1.LatestVersions branch = some mx ∧
      mx ∈ vs ∧ ∀ v ∈ vs, segCmp v.segs mx.segs ≠ Ordering.gt := by
  have hne2 : vs2 ≠ [] := by
    intro hnil
    exact hne (List.Perm.eq_nil (hnil ▸ hperm.symm))
  have h1 : lookupA (runMerges branch vs vi n1).1.LatestVersions branch
      = vs.foldl mergeOpt none := by
    unfold runMerges
    rw [runMerges_lookup branch vs (vi, false) n1]
    simp only
    rw [habsent]
  have h2 : lookupA (runMerges branch vs2 vi n2).1.LatestVersions branch
      = vs2.foldl mergeOpt none := by
    unfold runMerges
    rw [runMerges_lookup branch vs2 (vi, false) n2]
    simp only
    rw [habsent]
  obtain ⟨mx, hf, hmem, hdom⟩ := foldl_mergeOpt_none_spec vs hne
  obtain ⟨mx2, hf2, hmem2, hdom2⟩ := foldl_mergeOpt_none_spec vs2 hne2
  have hmem2v : mx2 ∈ vs := hperm.mem_iff.1 hmem2
  have hmemv2 : mx ∈ vs2 := hperm.mem_iff.2 hmem
  have hA : segCmp mx2.segs mx.segs ≠ Ordering.gt := hdom mx2 hmem2v
  have hB : segCmp mx.segs mx2.segs ≠ Ordering.gt := by
    intro hgt
    exact hdom2 mx hmemv2 hgt
  have heq : segCmp mx.segs mx2.segs = Ordering.eq := by
    cases hc : segCmp mx.segs mx2.segs with
    | lt => exact absurd ((segCmp_lt_iff_gt _ _).1 hc) hA
    | eq => rfl
    | gt => exact absurd hc hB
  have hsame : mx = mx2 := by
    have hl : mx.segs.length = mx2.segs.length := by
      rw [hlen mx hmem, hlen mx2 hmem2v]
    cases mx with
    | mk s1 =>
      cases mx2 with
      | mk s2 =>
        have := segCmp_eq_of_len s1 s2 hl heq
        rw [this]
  refine ⟨mx, h1.trans hf, ?_, hmem, hdom⟩
  rw [h2, hsame]
  exact hf2

/-- Witness for C2 with the two orders of `10.13.2, 10.13.6`. -/
theorem runMerges_any_order_yields_max_witness :
    ([⟨[10, 13, 2]⟩, ⟨[10, 13, 6]⟩] : List Version) ≠ [] ∧
    List.Perm ([⟨[10, 13, 6]⟩, ⟨[10, 13, 2]⟩] : List Version)
      [⟨[10, 13, 2]⟩, ⟨[10, 13, 6]⟩] ∧
    (∀ v ∈ ([⟨[10, 13, 2]⟩, ⟨[10, 13, 6]⟩] : List Version), v.segs.length = 3) ∧
    lookupA (VersionsInfo.mk [] 0).LatestVersions "HighSierra" = none ∧
    ∃ mx,
      lookupA (runMerges "HighSierra" [⟨[10, 13, 2]⟩, ⟨[10, 13, 6]⟩]
          (VersionsInfo.mk [] 0) 4).1.LatestVersions "HighSierra" = some mx ∧
      lookupA (runMerges "HighSierra" [⟨[10, 13, 6]⟩, ⟨[10, 13, 2]⟩]
          (VersionsInfo.mk [] 0) 8).1.LatestVersions "HighSierra" = some mx ∧
      mx ∈ ([⟨[10, 13, 2]⟩, ⟨[10, 13, 6]⟩] : List Version) ∧
      ∀ v ∈ ([⟨[10, 13, 2]⟩, ⟨[10, 13, 6]⟩] : List Version),
        segCmp v.segs mx.segs ≠ Ordering.gt :=
  ⟨by decide, by decide, by decide, by decide,
    runMerges_any_order_yields_max "HighSierra"
      [⟨[10, 13, 2]⟩, ⟨[10, 13, 6]⟩] [⟨[10, 13, 6]⟩, ⟨[10, 13, 2]⟩]
      (VersionsInfo.mk [] 0) 4 8 (by decide) (by decide) (by decide) (by decide)⟩

/-- C5: if one product's branch-level fetch/extraction fails (its
`getLatestVersion` returns an error) while the remaining products are
processed normally, the cycle still completes with an `ok` result and the
final store and `changed` flag are exactly those of the run without the
failing product — a branch-level error never aborts or affects siblings. -/
theorem updateOSVersionsMapFromProductMap_branch_error_isolated
    (branchFetch : String → FetchOutcome) (m : Matchers)
    (l1 l2 : List (String × PValue)) (k : String) (p : PValue)
    (vi : VersionsInfo) (now : Nat) (url e : String)
    (hurl : englishDistributionOf p = some url)
    (herr : (getLatestVersion m (branchFetch url)).1 = Except.error e) :
    ∃ st tr1 tr2,
      updateOSVersionsMapFromProductMap branchFetch m
          (PValue.dict [("Products", PValue.dict (l1 ++ (k, p) :: l2))]) vi now
        = some (Except.ok (st, tr1)) ∧
      updateOSVersionsMapFromProductMap branchFetch m
          (PValue.dict [("Products", PValue.dict (l1 ++ l2))]) vi now
        = some (Except.ok (st, tr2)) := by
  refine ⟨(l1 ++ l2).foldl (fun acc kp => processProduct branchFetch m now acc kp.2)
      (vi, false),
    (l1 ++ (k, p) :: l2).foldl (fun tr kp => tr ++ productTrace kp.2) [],
    (l1 ++ l2).foldl (fun tr kp => tr ++ productTrace kp.2) [], ?_, ?_⟩
  · rw [updateFromProductMap_dict_eq,
      foldl_processProduct_skip branchFetch m now l1 l2 k p url e hurl herr]
  · rw [updateFromProductMap_dict_eq]

/-- Witness for C5: two products, the first failing with a transport error,
the second advertising 10.13.6; the store reflects only the second. -/
theorem updateOSVersionsMapFromProductMap_branch_error_isolated_witness :
    englishDistributionOf
        (PValue.dict [("Distributions", PValue.dict [("English", PValue.str "bad")])])
      = some "bad" ∧
    (getLatestVersion
        (Matchers.mk (fun _ => ["t", "SU_TITLE", "macOS 10", ".13.6"]) (fun _ => [])
          (fun _ => ["m", "SU_VERS", "10.13.6"]))
        ((fun u => if u = "bad" then FetchOutcome.transportError
          else FetchOutcome.response (RespState.mk 200 "d" false 0 false)) "bad")).1
      = Except.error "Error making request" ∧
    ∃ st tr1 tr2,
      updateOSVersionsMapFromProductMap
          (fun u => if u = "bad" then FetchOutcome.transportError
            else FetchOutcome.response (RespState.mk 200 "d" false 0 false))
          (Matchers.mk (fun _ => ["t", "SU_TITLE", "macOS 10", ".13.6"]) (fun _ => [])
            (fun _ => ["m", "SU_VERS", "10.13.6"]))
          (PValue.dict [("Products", PValue.dict
            ([] ++ ("p0", PValue.dict [("Distributions",
                PValue.dict [("English", PValue.str "bad")])]) ::
              [("p1", PValue.dict [("Distributions",
                PValue.dict [("English", PValue.str "good")])])]))])
          (VersionsInfo.mk [] 0) 6
        = some (Except.ok (st, tr1)) ∧
      updateOSVersionsMapFromProductMap
          (fun u => if u = "bad" then FetchOutcome.transportError
            else FetchOutcome.response (RespState.mk 200 "d" false 0 false))
          (Matchers.mk (fun _ => ["t", "SU_TITLE", "macOS 10", ".13.6"]) (fun _ => [])
            (fun _ => ["m", "SU_VERS", "10.13.6"]))
          (PValue.dict [("Products", PValue.dict
            ([] ++ [("p1", PValue.dict [("Distributions",
                PValue.dict [("English", PValue.str "good")])])]))])
          (VersionsInfo.mk [] 0) 6
        = some (Except.ok (st, tr2)) :=
  ⟨by decide, by decide,
    updateOSVersionsMapFromProductMap_branch_error_isolated
      (fun u => if u = "bad" then FetchOutcome.transportError
        else FetchOutcome.response (RespState.mk 200 "d" false 0 false))
      (Matchers.mk (fun _ => ["t", "SU_TITLE", "macOS 10", ".13.6"]) (fun _ => [])
        (fun _ => ["m", "SU_VERS", "10.13.6"]))
      []
      [("p1", PValue.dict [("Distributions",
        PValue.dict [("English", PValue.str "good")])])]
      "p0"
      (PValue.dict [("Distributions", PValue.dict [("English", PValue.str "bad")])])
      (VersionsInfo.mk [] 0) 6 "bad" "Error making request"
      (by decide) (by decide)⟩

/-- C9 counterexample: an extracted version exactly equal to the 10.12.0
branch boundary is NOT dropped — it is merged into the store (under the
ElCapitan slot) with `changed = true`. -/
theorem processProduct_boundary_version_merged :
    segCmp [10, 12, 0] sierraMajor.segs = Ordering.eq ∧
    processProduct (fun _ => FetchOutcome.response (RespState.mk 200 "d" false 0 false))
        (Matchers.mk (fun _ => ["t", "SU_TITLE", "macOS 10", ".12"]) (fun _ => [])
          (fun _ => ["m", "SU_VERS", "10.12.0"]))
        7 (VersionsInfo.mk [] 0, false)
        (PValue.dict [("Distributions", PValue.dict [("English", PValue.str "u")])])
      = (VersionsInfo.mk [("ElCapitan", ⟨[10, 12, 0]⟩)] 7, true) := by
  decide

/-- C9 amended: only a version equal to the oldest boundary 10.11.0 is
silently dropped — it passes the below-threshold filter (not `LessThan`) yet
fails every strictly-`GreaterThan` branch classification, so the loop
iteration leaves the store untouched. -/
theorem processProduct_elCapitan_boundary_dropped
    (branchFetch : String → FetchOutcome) (m : Matchers) (now : Nat)
    (acc : VersionsInfo × Bool) (p : PValue) (url ver : String) (v : Version)
    (hurl : englishDistributionOf p = some url)
    (hok : (getLatestVersion m (branchFetch url)).1 = Except.ok ver)
    (hparse : parseVersion ver = some v)
    (heq : segCmp v.segs elCapitanMajor.segs = Ordering.eq) :
    processProduct branchFetch m now acc p = acc := by
  have hle : segCmp v.segs elCapitanMajor.segs ≠ Ordering.gt := by rw [heq]; simp
  have hLT : v.LessThan elCapitanMajor = false := by
    simp [Version.LessThan, heq]
  have hGE : v.GreaterThan elCapitanMajor = false := by
    simp [Version.GreaterThan, heq]
  have hS : v.GreaterThan sierraMajor = false := by
    cases hb : v.GreaterThan sierraMajor with
    | false => rfl
    | true =>
      have hgt := (Version.greaterThan_iff _ _).1 hb
      exact absurd hgt
        (segCmp_le_trans v.segs elCapitanMajor.segs sierraMajor.segs hle (by decide))
  have hH : v.GreaterThan highSierraMajor = false := by
    cases hb : v.GreaterThan highSierraMajor with
    | false => rfl
    | true =>
      have hgt := (Version.greaterThan_iff _ _).1 hb
      exact absurd hgt
        (segCmp_le_trans v.segs elCapitanMajor.segs highSierraMajor.segs hle (by decide))
  cases hget : getLatestVersion m (branchFetch url) with
  | mk res rs =>
    rw [hget] at hok
    have hres : res = Except.ok ver := hok
    subst hres
    unfold processProduct
    rw [hurl]
    simp only [hget]
    have hv : ver ≠ "" := by
      intro hempty
      subst hempty
      rw [show parseVersion "" = none from by decide] at hparse
      simp at hparse
    rw [if_neg hv]
    simp only [hparse]
    simp [hLT, hH, hS, hGE]

/-- Witness for the amended C9: an extracted `"10.11.0"` is dropped. -/
theorem processProduct_elCapitan_boundary_dropped_witness :
    englishDistributionOf
        (PValue.dict [("Distributions", PValue.dict [("English", PValue.str "u")])])
      = some "u" ∧
    parseVersion "10.11.0" = some ⟨[10, 11, 0]⟩ ∧
    segCmp [10, 11, 0] elCapitanMajor.segs = Ordering.eq ∧
    processProduct (fun _ => FetchOutcome.response (RespState.mk 200 "d" false 0 false))
        (Matchers.mk (fun _ => ["t", "SU_TITLE", "macOS 10", ".11"]) (fun _ => [])
          (fun _ => ["m", "SU_VERS", "10.11.0"]))
        7 (VersionsInfo.mk [] 0, false)
        (PValue.dict [("Distributions", PValue.dict [("English", PValue.str "u")])])
      = (VersionsInfo.mk [] 0, false) :=
  ⟨by decide, by decide, by decide,
    processProduct_elCapitan_boundary_dropped
      (fun _ => FetchOutcome.response (RespState.mk 200 "d" false 0 false))
      (Matchers.mk (fun _ => ["t", "SU_TITLE", "macOS 10", ".11"]) (fun _ => [])
        (fun _ => ["m", "SU_VERS", "10.11.0"]))
      7 (VersionsInfo.mk [] 0, false)
      (PValue.dict [("Distributions", PValue.dict [("English", PValue.str "u")])])
      "u" "10.11.0" ⟨[10, 11, 0]⟩ (by decide) (by decide) (by decide) (by decide)⟩
